import Mathlib

/-!
Verification of the core data pipeline of the Karnataka Assembly 2023
analytics dashboard (`src/app.py`): party-name normalization, loader
coercions, the filter engine, and the aggregation stage (seat counts,
majority threshold, governing bucket, comparative seat share), embedded
shallowly as Lean functions over lists of rows.
-/

namespace KA2023

/-- Predicate `matchAt needle hay` : does `needle` occur as a prefix of `hay`?
Model of Python `str.startswith` on the underlying character list. -/
def matchAt : List Char → List Char → Bool
  | [], _ => true
  | _ :: _, [] => false
  | a :: as, b :: bs => a == b && matchAt as bs

/-- Predicate `hasSubstr needle hay` : does `needle` occur as a contiguous substring
of `hay`?  Model of Python `needle in hay`. -/
def hasSubstr (needle : List Char) : List Char → Bool
  | [] => matchAt needle []
  | b :: t => matchAt needle (b :: t) || hasSubstr needle t

/-- Python `s.startswith(p)`. -/
def strStartsWith (s p : String) : Bool := matchAt p.data s.data

/-- Python `sub in s` (substring containment). -/
def strContains (s sub : String) : Bool := hasSubstr sub.data s.data

/-- Python `s.upper()` (ASCII uppercasing, as in the data at hand). -/
def toUpperStr (s : String) : String := ⟨s.data.map Char.toUpper⟩

/-- Python `s.strip()`: drop leading and trailing whitespace. -/
def trimStr (s : String) : String :=
  ⟨((s.data.dropWhile Char.isWhitespace).reverse.dropWhile Char.isWhitespace).reverse⟩

/-- First check of `norm_party` (`src/app.py` line 69):
`p == "INC" or "CONGRESS" in p`. -/
def incMatch (q : String) : Bool := q == "INC" || strContains q "CONGRESS"

/-- Second check of `norm_party` (line 71):
`p == "BJP" or "BHARATIYA JANATA" in p`. -/
def bjpMatch (q : String) : Bool := q == "BJP" || strContains q "BHARATIYA JANATA"

/-- Third check of `norm_party` (line 73):
`p.startswith("JD") or "JANATA DAL" in p`. -/
def jdsMatch (q : String) : Bool := strStartsWith q "JD" || strContains q "JANATA DAL"

/-- Function `norm_party` from `src/app.py` lines 67-75: uppercase and trim the raw
party label, then test the three bucket checks in order, first match wins,
falling back to `"Others"`. -/
def norm_party (p : String) : String :=
  let q := trimStr (toUpperStr p)
  if incMatch q then "INC"
  else if bjpMatch q then "BJP"
  else if jdsMatch q then "JDS"
  else "Others"

/-- Claim C1: `norm_party` is total and deterministic: every input lands in exactly
one of the four buckets; the checks are applied to the uppercased, trimmed
input in the order INC, BJP, JDS, Others, first match winning; and the four
cited examples normalize as stated. -/
theorem norm_party_total_ordered (s : String) :
    (norm_party s = "INC" ∨ norm_party s = "BJP" ∨ norm_party s = "JDS" ∨
      norm_party s = "Others")
    ∧ (incMatch (trimStr (toUpperStr s)) = true → norm_party s = "INC")
    ∧ (incMatch (trimStr (toUpperStr s)) = false →
        bjpMatch (trimStr (toUpperStr s)) = true → norm_party s = "BJP")
    ∧ (incMatch (trimStr (toUpperStr s)) = false →
        bjpMatch (trimStr (toUpperStr s)) = false →
        jdsMatch (trimStr (toUpperStr s)) = true → norm_party s = "JDS")
    ∧ (incMatch (trimStr (toUpperStr s)) = false →
        bjpMatch (trimStr (toUpperStr s)) = false →
        jdsMatch (trimStr (toUpperStr s)) = false → norm_party s = "Others")
    ∧ norm_party "indian national congress" = "INC"
    ∧ norm_party "bjp" = "BJP"
    ∧ norm_party "JD(S)" = "JDS"
    ∧ norm_party "IND" = "Others" := by
  refine ⟨?_, ?_, ?_, ?_, ?_, by decide, by decide, by decide, by decide⟩
  · cases hi : incMatch (trimStr (toUpperStr s)) <;>
      cases hb : bjpMatch (trimStr (toUpperStr s)) <;>
      cases hj : jdsMatch (trimStr (toUpperStr s)) <;>
      simp [norm_party, hi, hb, hj]
  · intro h; simp [norm_party, h]
  · intro h1 h2; simp [norm_party, h1, h2]
  · intro h1 h2 h3; simp [norm_party, h1, h2, h3]
  · intro h1 h2 h3; simp [norm_party, h1, h2, h3]

/-- Witness for C1 at the concrete input `"bjp"`: the INC check fails and the
BJP check succeeds, so the cascade returns `"BJP"`. -/
theorem norm_party_total_ordered_witness : norm_party "bjp" = "BJP" :=
  (norm_party_total_ordered "bjp").2.2.1 (by decide) (by decide)

/-- A raw tabular cell, as seen by `pd.to_numeric(..., errors="coerce")`:
either a numeric value, a non-numeric string, or missing (NaN). -/
inductive Cell
  | num (q : ℚ)
  | str (s : String)
  | missing
deriving DecidableEq

/-- A cell that `pd.to_numeric(..., errors="coerce")` turns into NaN. -/
def Cell.isNonNum : Cell → Bool
  | Cell.num _ => false
  | _ => true

/-- A raw input record with the required columns of `load_data`
(`src/app.py` lines 45-55); the numeric columns arrive as raw cells. -/
structure RawRow where
  constituency_id : String
  constituency_name : String
  winner_name : String
  winner_party : String
  winner : String
  region : String
  margin : Cell
  turnout_percentage : Cell
  seats : Cell
deriving DecidableEq

/-- A canonical dataset row after `load_data`: numeric fields coerced,
`winner` normalized into a bucket. -/
structure Row where
  constituency_id : String
  constituency_name : String
  winner_name : String
  winner_party : String
  winner : String
  region : String
  margin : ℤ
  turnout_percentage : ℚ
  seats : ℤ
deriving DecidableEq

/-- Cast `astype(int)` on a float value: truncation toward zero. -/
def truncInt (q : ℚ) : ℤ := if 0 ≤ q then ⌊q⌋ else ⌈q⌉

/-- Coercion `pd.to_numeric(df["Margin"], errors="coerce").fillna(0).astype(int)`
(`src/app.py` line 62) applied to one cell. -/
def coerceMargin : Cell → ℤ
  | Cell.num q => truncInt q
  | _ => 0

/-- Coercion `pd.to_numeric(df["Turnout_Percentage"], errors="coerce").fillna(72.0)`
(`src/app.py` line 63) applied to one cell. -/
def coerceTurnout : Cell → ℚ
  | Cell.num q => q
  | _ => 72

/-- Coercion `pd.to_numeric(df["Seats"], errors="coerce").fillna(1).astype(int)`
(`src/app.py` line 64) applied to one cell. -/
def coerceSeats : Cell → ℤ
  | Cell.num q => truncInt q
  | _ => 1

/-- One row of `load_data` (`src/app.py` lines 62-77): coerce the three
numeric columns and re-derive the `Winner` bucket with `norm_party`. -/
def loadRow (r : RawRow) : Row where
  constituency_id := r.constituency_id
  constituency_name := r.constituency_name
  winner_name := r.winner_name
  winner_party := r.winner_party
  winner := norm_party r.winner
  region := r.region
  margin := coerceMargin r.margin
  turnout_percentage := coerceTurnout r.turnout_percentage
  seats := coerceSeats r.seats

/-- Loader `load_data` (`src/app.py` lines 41-78) on a schema-complete input:
every raw row is coerced and kept, none is rejected. -/
def load_data (raw : List RawRow) : List Row := raw.map loadRow

/-- Claim C4: the loader coerces each numeric field with fixed defaults — a
non-numeric margin becomes 0, a non-numeric turnout becomes 72.0, a
non-numeric or missing seats value becomes 1 — and such rows are accepted,
not rejected (the output has exactly one row per input row). -/
theorem load_data_coercion_defaults (r : RawRow) (raw : List RawRow) :
    (r.margin.isNonNum = true → (loadRow r).margin = 0)
    ∧ (r.turnout_percentage.isNonNum = true →
        (loadRow r).turnout_percentage = 72)
    ∧ (r.seats.isNonNum = true → (loadRow r).seats = 1)
    ∧ (r ∈ raw → loadRow r ∈ load_data raw)
    ∧ (load_data raw).length = raw.length := by
  refine ⟨?_, ?_, ?_, ?_, List.length_map _ _⟩
  · intro h
    cases hm : r.margin <;> simp [loadRow, coerceMargin, hm] <;>
      simp [hm, Cell.isNonNum] at h
  · intro h
    cases hm : r.turnout_percentage <;> simp [loadRow, coerceTurnout, hm] <;>
      simp [hm, Cell.isNonNum] at h
  · intro h
    cases hm : r.seats <;> simp [loadRow, coerceSeats, hm] <;>
      simp [hm, Cell.isNonNum] at h
  · intro h
    exact List.mem_map_of_mem loadRow h

/-- A concrete raw row whose three numeric cells are all non-numeric. -/
def badCellsRaw : RawRow where
  constituency_id := "1"
  constituency_name := "A"
  winner_name := "W"
  winner_party := "INC"
  winner := "INC"
  region := "R"
  margin := Cell.str "n/a"
  turnout_percentage := Cell.missing
  seats := Cell.str ""

/-- Witness for C4: on `badCellsRaw` the loader yields margin 0, turnout
72.0 and seats 1, and keeps the row. -/
theorem load_data_coercion_defaults_witness :
    (loadRow badCellsRaw).margin = 0
    ∧ (loadRow badCellsRaw).turnout_percentage = 72
    ∧ (loadRow badCellsRaw).seats = 1
    ∧ loadRow badCellsRaw ∈ load_data [badCellsRaw]
    ∧ (load_data [badCellsRaw]).length = [badCellsRaw].length := by
  have h := load_data_coercion_defaults badCellsRaw [badCellsRaw]
  exact ⟨h.1 (by decide), h.2.1 (by decide), h.2.2.1 (by decide),
    h.2.2.2.1 (by simp), h.2.2.2.2⟩

/-- A sidebar filter selection (`src/app.py` lines 102-120): a set of
regions, a set of winner buckets and an inclusive turnout range. -/
structure Selection where
  regions : List String
  buckets : List String
  turnout_min : ℚ
  turnout_max : ℚ

/-- The row-level predicate of the filter (`src/app.py` lines 127-131):
`Region.isin(region_filter) & Winner.isin(party_filter) &
Turnout_Percentage.between(turnout_min, turnout_max)` (inclusive bounds). -/
def rowPred (sel : Selection) (r : Row) : Bool :=
  sel.regions.contains r.region && sel.buckets.contains r.winner
    && decide (sel.turnout_min ≤ r.turnout_percentage)
    && decide (r.turnout_percentage ≤ sel.turnout_max)

/-- Filter `filtered_df` (`src/app.py` lines 127-131): the rows of `df` that pass
all three predicates; a fresh view, `df` itself is untouched. -/
def filtered_df (df : List Row) (sel : Selection) : List Row :=
  df.filter (rowPred sel)

/-- Claim C2: the filter engine is sound and complete — a row is in
`filtered_df df sel` iff it is a row of `df` whose region is selected,
whose winner bucket is selected and whose turnout lies in the inclusive
range — and the output is a sublist of the unchanged source `df`. -/
theorem filtered_df_sound_complete (df : List Row) (sel : Selection) (r : Row) :
    (r ∈ filtered_df df sel ↔
      r ∈ df ∧ r.region ∈ sel.regions ∧ r.winner ∈ sel.buckets ∧
        sel.turnout_min ≤ r.turnout_percentage ∧
        r.turnout_percentage ≤ sel.turnout_max)
    ∧ (filtered_df df sel).Sublist df := by
  constructor
  · simp only [filtered_df, List.mem_filter, rowPred, Bool.and_eq_true,
      List.contains, List.elem_eq_mem, decide_eq_true_eq, and_assoc]
  · exact List.filter_sublist df

/-- A concrete canonical row used by several witnesses. -/
def sampleRow : Row where
  constituency_id := "1"
  constituency_name := "A"
  winner_name := "W"
  winner_party := "Indian National Congress"
  winner := "INC"
  region := "Bengaluru"
  margin := 500
  turnout_percentage := 70
  seats := 1

/-- Witness for C2 (the iff, exercised in the satisfying direction) at a
concrete dataset and selection. -/
theorem filtered_df_sound_complete_witness :
    sampleRow ∈ filtered_df [sampleRow]
      ⟨["Bengaluru"], ["INC", "BJP", "JDS", "Others"], 0, 100⟩
    ∧ (filtered_df [sampleRow]
        ⟨["Bengaluru"], ["INC", "BJP", "JDS", "Others"], 0, 100⟩).Sublist
        [sampleRow] := by
  have h := filtered_df_sound_complete [sampleRow]
    ⟨["Bengaluru"], ["INC", "BJP", "JDS", "Others"], 0, 100⟩ sampleRow
  exact ⟨h.1.mpr (by refine ⟨by simp, by decide, by decide, by decide, by decide⟩), h.2⟩

/-- A raw row whose margin cell is the numeric value -5: `pd.to_numeric`
keeps it, `fillna(0)` does not touch it, `astype(int)` keeps it at -5. -/
def negMarginRaw : RawRow where
  constituency_id := "2"
  constituency_name := "B"
  winner_name := "W"
  winner_party := "BJP"
  winner := "BJP"
  region := "Coastal"
  margin := Cell.num (-5)
  turnout_percentage := Cell.num 70
  seats := Cell.num 1

/-- Counterexample to C9: the loader does not enforce non-negativity of
`margin` — on a dataset whose margin cell is the numeric value -5, the
loaded row keeps margin -5 < 0. -/
theorem load_data_margin_nonneg_cex :
    ¬ ∀ r ∈ load_data [negMarginRaw], 0 ≤ r.margin := by
  intro h
  have := h (loadRow negMarginRaw) (by simp [load_data])
  rw [show (loadRow negMarginRaw).margin = -5 from by decide] at this
  omega

/-- Claim C9 (amended): after coercion `margin` is an integer; non-numeric or
missing margin cells become 0, and a numeric margin cell with a
non-negative value yields a non-negative margin — but negative numeric
source values are preserved as they are, so non-negativity holds exactly
when every numeric source margin is non-negative. -/
theorem load_data_margin_amended (raw : List RawRow)
    (h : ∀ r ∈ raw, ∀ q : ℚ, r.margin = Cell.num q → 0 ≤ q) :
    ∀ r ∈ load_data raw, 0 ≤ r.margin := by
  intro r hr
  obtain ⟨a, ha, rfl⟩ := List.mem_map.mp hr
  cases hm : a.margin with
  | num q =>
      have hq : 0 ≤ q := h a ha q hm
      have : 0 ≤ truncInt q := by
        rw [truncInt, if_pos hq]
        exact Int.floor_nonneg.mpr hq
      simpa [loadRow, coerceMargin, hm] using this
  | str s => simp [loadRow, coerceMargin, hm]
  | missing => simp [loadRow, coerceMargin, hm]

/-- Witness for the amended C9: a one-row dataset without a negative
numeric margin loads with non-negative margin. -/
theorem load_data_margin_amended_witness :
    0 ≤ (loadRow badCellsRaw).margin :=
  load_data_margin_amended [badCellsRaw]
    (by intro r hr q hq; simp [badCellsRaw] at hr; simp [hr] at hq)
    (loadRow badCellsRaw) (by simp [load_data])

/-- Number of rows of `l` whose `Winner` bucket is `b` — the value
`value_counts()` associates to the key `b`. -/
def countBucket (l : List Row) (b : String) : ℕ :=
  (l.filter (fun r => r.winner == b)).length

/-- Lexicographic (alphabetical) order on character lists: the order
`sort_index` uses on the bucket keys. -/
def charLe : List Char → List Char → Bool
  | [], _ => true
  | _ :: _, [] => false
  | a :: as, b :: bs => if a = b then charLe as bs else decide (a < b)

/-- Alphabetical order on strings (lexicographic on the characters). -/
def strLe (s t : String) : Bool := charLe s.data t.data

/-- Insert a key into an alphabetically sorted list, keeping it sorted. -/
def insertKey (a : String) : List String → List String
  | [] => [a]
  | b :: t => if strLe a b then a :: b :: t else b :: insertKey a t

/-- Sort keys ascending alphabetically (insertion sort) — the `sort_index`
step of `src/app.py` line 139. -/
def sortKeys : List String → List String
  | [] => []
  | a :: t => insertKey a (sortKeys t)

/-- Aggregation `df["Winner"].value_counts().sort_index()` (`src/app.py` line 139):
the distinct buckets occurring in `l`, sorted ascending by key, each
paired with its row count. -/
def party_counts (l : List Row) : List (String × ℕ) :=
  (sortKeys (l.map Row.winner).dedup).map (fun b => (b, countBucket l b))

lemma charLe_refl (as : List Char) : charLe as as = true := by
  induction as with
  | nil => rfl
  | cons a as ih => simp [charLe, ih]

lemma charLe_total (as bs : List Char) :
    charLe as bs = true ∨ charLe bs as = true := by
  induction as generalizing bs with
  | nil => exact Or.inl rfl
  | cons a as ih =>
      cases bs with
      | nil => exact Or.inr rfl
      | cons b bs =>
          by_cases hab : a = b
          · subst hab
            simpa [charLe] using ih bs
          · rcases lt_or_gt_of_ne hab with hlt | hgt
            · exact Or.inl (by simp [charLe, hab, hlt])
            · exact Or.inr (by simp [charLe, Ne.symm hab, hgt])

lemma charLe_trans (as bs cs : List Char) (h1 : charLe as bs = true)
    (h2 : charLe bs cs = true) : charLe as cs = true := by
  induction as generalizing bs cs with
  | nil => rfl
  | cons a as ih =>
      cases bs with
      | nil => simp [charLe] at h1
      | cons b bs =>
          cases cs with
          | nil => simp [charLe] at h2
          | cons c cs =>
              rw [charLe] at h1 h2 ⊢
              by_cases hab : a = b
              · subst hab
                rw [if_pos rfl] at h1
                by_cases hac : a = c
                · subst hac
                  rw [if_pos rfl] at h2 ⊢
                  exact ih bs cs h1 h2
                · rw [if_neg hac] at h2 ⊢
                  exact h2
              · rw [if_neg hab] at h1
                have hab' : a < b := by simpa using h1
                by_cases hbc : b = c
                · subst hbc
                  rw [if_neg hab]
                  simpa using hab'
                · rw [if_neg hbc] at h2
                  have hbc' : b < c := by simpa using h2
                  have hac' : a < c := lt_trans hab' hbc'
                  rw [if_neg (ne_of_lt hac')]
                  simpa using hac'

lemma strLe_refl (s : String) : strLe s s = true := charLe_refl s.data

lemma strLe_total (s t : String) : strLe s t = true ∨ strLe t s = true :=
  charLe_total s.data t.data

lemma strLe_trans {s t u : String} (h1 : strLe s t = true)
    (h2 : strLe t u = true) : strLe s u = true :=
  charLe_trans s.data t.data u.data h1 h2

lemma mem_insertKey (a x : String) (l : List String) :
    x ∈ insertKey a l ↔ x = a ∨ x ∈ l := by
  induction l with
  | nil => simp [insertKey]
  | cons b t ih =>
      rw [insertKey]
      split
      · simp
      · simp only [List.mem_cons, ih]
        tauto

lemma mem_sortKeys (x : String) (l : List String) :
    x ∈ sortKeys l ↔ x ∈ l := by
  induction l with
  | nil => simp [sortKeys]
  | cons a t ih => rw [sortKeys, mem_insertKey, ih]; simp

lemma insertKey_pairwise (a : String) (l : List String)
    (h : l.Pairwise (fun x y => strLe x y = true)) :
    (insertKey a l).Pairwise (fun x y => strLe x y = true) := by
  induction l with
  | nil => simp [insertKey]
  | cons b t ih =>
      rw [List.pairwise_cons] at h
      obtain ⟨hb, ht⟩ := h
      rw [insertKey]
      split
      · rename_i hab
        rw [List.pairwise_cons]
        refine ⟨?_, List.pairwise_cons.mpr ⟨hb, ht⟩⟩
        intro x hx
        rcases List.mem_cons.mp hx with rfl | hx'
        · exact hab
        · exact strLe_trans hab (hb x hx')
      · rename_i hab
        have hba : strLe b a = true := by
          rcases strLe_total a b with h' | h'
          · exact absurd h' hab
          · exact h'
        rw [List.pairwise_cons]
        refine ⟨?_, ih ht⟩
        intro x hx
        rcases (mem_insertKey a x t).mp hx with rfl | hx'
        · exact hba
        · exact hb x hx'

lemma sortKeys_pairwise (l : List String) :
    (sortKeys l).Pairwise (fun x y => strLe x y = true) := by
  induction l with
  | nil => simp [sortKeys]
  | cons a t ih => exact insertKey_pairwise a (sortKeys t) ih

/-- Model of `Series.idxmax` on a nonempty sequence of (key, value) pairs: the key
of the first pair attaining the maximal value; the accumulator is replaced
only on a strictly greater value. -/
def idxmaxAux (p : String × ℕ) : List (String × ℕ) → String × ℕ
  | [] => p
  | q :: t => if p.2 < q.2 then idxmaxAux q t else idxmaxAux p t

/-- Aggregate `winner_party_state = party_counts_state.idxmax()` (`src/app.py`
line 142), as a function of the dataset; `""` on an empty dataset (where
the source would raise before reaching this point). -/
def governing_bucket (l : List Row) : String :=
  match party_counts l with
  | [] => ""
  | p :: t => (idxmaxAux p t).1

/-- Threshold `majority_mark = (total_seats_state // 2) + 1` (`src/app.py` line 141). -/
def majority_threshold (total_seats : ℕ) : ℕ := total_seats / 2 + 1

/-- The government-status string of `src/app.py` line 158:
`"Majority" if party_counts_state[winner_party_state] >= majority_mark
else "Hung Assembly"`. -/
def government_status (l : List Row) : String :=
  if majority_threshold l.length ≤ countBucket l (governing_bucket l)
  then "Majority" else "Hung Assembly"

lemma idxmaxAux_mem (l : List (String × ℕ)) (p : String × ℕ) :
    idxmaxAux p l ∈ p :: l := by
  induction l generalizing p with
  | nil => simp [idxmaxAux]
  | cons q t ih =>
      rw [idxmaxAux]
      split
      · have := ih q
        simp only [List.mem_cons] at this ⊢
        tauto
      · have := ih p
        simp only [List.mem_cons] at this ⊢
        tauto

lemma idxmaxAux_ge (l : List (String × ℕ)) (p : String × ℕ) :
    ∀ q ∈ p :: l, q.2 ≤ (idxmaxAux p l).2 := by
  induction l generalizing p with
  | nil => simp [idxmaxAux]
  | cons r t ih =>
      intro q hq
      rw [idxmaxAux]
      by_cases hc : p.2 < r.2
      · rw [if_pos hc]
        rcases List.mem_cons.mp hq with h1 | h2
        · have hr : r.2 ≤ (idxmaxAux r t).2 := ih r r (List.mem_cons_self r t)
          rw [h1]
          omega
        · exact ih r q h2
      · rw [if_neg hc]
        have hp : p.2 ≤ (idxmaxAux p t).2 := ih p p (List.mem_cons_self p t)
        rcases List.mem_cons.mp hq with h1 | h2
        · rw [h1]; exact hp
        · rcases List.mem_cons.mp h2 with h3 | h4
          · rw [h3]
            omega
          · exact ih p q (List.mem_cons.mpr (Or.inr h4))

lemma idxmaxAux_first (l : List (String × ℕ)) (p : String × ℕ)
    (hs : (p :: l).Pairwise (fun a b => strLe a.1 b.1 = true)) :
    ∀ q ∈ p :: l, q.2 = (idxmaxAux p l).2 →
      strLe (idxmaxAux p l).1 q.1 = true := by
  induction l generalizing p with
  | nil =>
      intro q hq _
      rw [List.mem_singleton] at hq
      rw [idxmaxAux, hq]
      exact strLe_refl p.1
  | cons r t ih =>
      intro q hq heq
      rw [idxmaxAux] at heq ⊢
      rw [List.pairwise_cons] at hs
      obtain ⟨hpall, hrt⟩ := hs
      by_cases hc : p.2 < r.2
      · rw [if_pos hc] at heq ⊢
        rcases List.mem_cons.mp hq with h1 | h2
        · exfalso
          have hr : r.2 ≤ (idxmaxAux r t).2 := idxmaxAux_ge t r r (List.mem_cons_self r t)
          rw [h1] at heq
          omega
        · exact ih r hrt q h2 heq
      · rw [if_neg hc] at heq ⊢
        have hpt : (p :: t).Pairwise (fun a b => strLe a.1 b.1 = true) := by
          rw [List.pairwise_cons]
          exact ⟨fun x hx => hpall x (List.mem_cons.mpr (Or.inr hx)),
            (List.pairwise_cons.mp hrt).2⟩
        have hple : p.2 ≤ (idxmaxAux p t).2 := idxmaxAux_ge t p p (List.mem_cons_self p t)
        rcases List.mem_cons.mp hq with h1 | h2
        · exact ih p hpt q (by rw [h1]; exact List.mem_cons_self p t) heq
        · rcases List.mem_cons.mp h2 with h3 | h4
          · -- q = r : its count equals the maximum, which then also equals p.2
            have hqr : q.2 = r.2 := by rw [h3]
            have hp2 : p.2 = (idxmaxAux p t).2 := by omega
            have hfst : strLe (idxmaxAux p t).1 p.1 = true :=
              ih p hpt p (List.mem_cons_self p t) hp2
            have hpr : strLe p.1 r.1 = true := hpall r (List.mem_cons_self r t)
            rw [h3]
            exact strLe_trans hfst hpr
          · exact ih p hpt q (List.mem_cons.mpr (Or.inr h4)) heq

lemma mem_party_counts_iff (l : List Row) (q : String × ℕ) :
    q ∈ party_counts l ↔
      q.1 ∈ l.map Row.winner ∧ q.2 = countBucket l q.1 := by
  unfold party_counts
  rw [List.mem_map]
  constructor
  · rintro ⟨b, hb, rfl⟩
    rw [mem_sortKeys, List.mem_dedup] at hb
    exact ⟨hb, rfl⟩
  · rintro ⟨hb, hq⟩
    refine ⟨q.1, ?_, ?_⟩
    · rw [mem_sortKeys, List.mem_dedup]
      exact hb
    · exact Prod.ext rfl hq.symm

lemma party_counts_pairwise (l : List Row) :
    (party_counts l).Pairwise (fun a b => strLe a.1 b.1 = true) := by
  unfold party_counts
  rw [List.pairwise_map]
  exact sortKeys_pairwise _

lemma party_counts_ne_nil (l : List Row) (h : l ≠ []) :
    party_counts l ≠ [] := by
  obtain ⟨r, t, rfl⟩ := List.exists_cons_of_ne_nil h
  intro hpc
  unfold party_counts at hpc
  rw [List.map_eq_nil_iff] at hpc
  have : r.winner ∈ sortKeys ((r :: t).map Row.winner).dedup := by
    rw [mem_sortKeys, List.mem_dedup]
    simp
  rw [hpc] at this
  exact List.not_mem_nil _ this

/-- Claim C5: `governing_bucket` is the stable argmax of the key-sorted bucket
counts: it is a bucket occurring in the dataset, its count is maximal, and
among the buckets tied at the maximal count it is the alphabetically
first. -/
theorem governing_bucket_argmax (df : List Row) (h : df ≠ []) :
    governing_bucket df ∈ df.map Row.winner
    ∧ (∀ b ∈ df.map Row.winner,
        countBucket df b ≤ countBucket df (governing_bucket df))
    ∧ (∀ b ∈ df.map Row.winner,
        countBucket df b = countBucket df (governing_bucket df) →
          strLe (governing_bucket df) b = true) := by
  obtain ⟨p, t, hpc⟩ := List.exists_cons_of_ne_nil (party_counts_ne_nil df h)
  have hg : governing_bucket df = (idxmaxAux p t).1 := by
    rw [governing_bucket, hpc]
  have hres : idxmaxAux p t ∈ party_counts df := by
    rw [hpc]; exact idxmaxAux_mem t p
  have hres' := (mem_party_counts_iff df (idxmaxAux p t)).mp hres
  have hcnt : (idxmaxAux p t).2 = countBucket df (governing_bucket df) := by
    rw [hg]; exact hres'.2
  refine ⟨by rw [hg]; exact hres'.1, ?_, ?_⟩
  · intro b hb
    have hbmem : (b, countBucket df b) ∈ party_counts df :=
      (mem_party_counts_iff df (b, countBucket df b)).mpr ⟨hb, rfl⟩
    rw [hpc] at hbmem
    have := idxmaxAux_ge t p (b, countBucket df b) hbmem
    rw [hcnt] at this
    exact this
  · intro b hb htie
    have hbmem : (b, countBucket df b) ∈ party_counts df :=
      (mem_party_counts_iff df (b, countBucket df b)).mpr ⟨hb, rfl⟩
    rw [hpc] at hbmem
    have hpair : (p :: t).Pairwise (fun a b => strLe a.1 b.1 = true) := by
      rw [← hpc]; exact party_counts_pairwise df
    have := idxmaxAux_first t p hpair (b, countBucket df b) hbmem
      (by rw [htie, ← hcnt])
    rw [← hg] at this
    exact this

/-- Witness for C5 on a concrete two-party tie: both buckets have count 1,
and the alphabetically first ("BJP" < "INC") is returned. -/
theorem governing_bucket_argmax_witness :
    governing_bucket [sampleRow, { sampleRow with winner := "BJP" }]
        ∈ ([sampleRow, { sampleRow with winner := "BJP" }].map Row.winner)
    ∧ governing_bucket [sampleRow, { sampleRow with winner := "BJP" }] = "BJP" := by
  refine ⟨(governing_bucket_argmax _ (by simp)).1, ?_⟩
  decide

/-- A minimal canonical row with the given winner bucket. -/
def mkRow (b : String) : Row where
  constituency_id := "0"
  constituency_name := "C"
  winner_name := "W"
  winner_party := b
  winner := b
  region := "R"
  margin := 1000
  turnout_percentage := 72
  seats := 1

/-- The scenario dataset of the spec: 224 rows, INC=135, BJP=66, JDS=19,
Others=4. -/
def scenario224 : List Row :=
  List.replicate 135 (mkRow "INC") ++ List.replicate 66 (mkRow "BJP")
    ++ List.replicate 19 (mkRow "JDS") ++ List.replicate 4 (mkRow "Others")

set_option maxRecDepth 100000 in
/-- Claim C6: the majority threshold is `total_seats / 2 + 1` (so 113 for 224
seats), the government status is `"Majority"` exactly when the governing
bucket's count reaches it, and on the 224-row scenario dataset
(INC=135, BJP=66, JDS=19, Others=4) the governing bucket is INC with
status `"Majority"`. -/
theorem majority_status_spec :
    (∀ n : ℕ, majority_threshold n = n / 2 + 1)
    ∧ majority_threshold 224 = 113
    ∧ (∀ df : List Row, government_status df = "Majority" ↔
        majority_threshold df.length ≤ countBucket df (governing_bucket df))
    ∧ scenario224.length = 224
    ∧ countBucket scenario224 "INC" = 135
    ∧ countBucket scenario224 "BJP" = 66
    ∧ countBucket scenario224 "JDS" = 19
    ∧ countBucket scenario224 "Others" = 4
    ∧ governing_bucket scenario224 = "INC"
    ∧ government_status scenario224 = "Majority" := by
  refine ⟨fun n => rfl, by decide, ?_, by decide, by decide, by decide,
    by decide, by decide, by decide, by decide⟩
  intro df
  rw [government_status]
  split
  · rename_i h
    exact ⟨fun _ => h, fun _ => rfl⟩
  · rename_i h
    exact ⟨fun hcontra => absurd hcontra (by decide), fun hle => absurd hle h⟩

/-- The fixed bucket order of `comp_df` (`src/app.py` line 210). -/
def buckets4 : List String := ["INC", "BJP", "JDS", "Others"]

/-- One row of `comp_df` (`src/app.py` lines 209-215). -/
structure CompRow where
  party : String
  statewide_seats : ℕ
  filtered_seats : ℕ
  statewide_pct : ℚ
  filtered_pct : ℚ
deriving DecidableEq

/-- Table `comp_df` (`src/app.py` lines 209-215): for each bucket in the fixed
order [INC, BJP, JDS, Others] the seat count under the full and the
filtered dataset, and the corresponding percentages
`count / total_rows_in_scope * 100`. -/
def comparative_seat_share (full filt : List Row) : List CompRow :=
  buckets4.map (fun p =>
    { party := p
      statewide_seats := countBucket full p
      filtered_seats := countBucket filt p
      statewide_pct := (countBucket full p : ℚ) / full.length * 100
      filtered_pct := (countBucket filt p : ℚ) / filt.length * 100 })

lemma countBucket_partition (l : List Row)
    (h : ∀ r ∈ l, r.winner ∈ buckets4) :
    countBucket l "INC" + countBucket l "BJP" + countBucket l "JDS"
      + countBucket l "Others" = l.length := by
  induction l with
  | nil => rfl
  | cons r t ih =>
      have ht : ∀ x ∈ t, x.winner ∈ buckets4 :=
        fun x hx => h x (List.mem_cons.mpr (Or.inr hx))
      have hr := h r (List.mem_cons_self r t)
      have hsum := ih ht
      have hcons : ∀ b : String, countBucket (r :: t) b =
          (if r.winner == b then 1 else 0) + countBucket t b := by
        intro b
        rw [countBucket, countBucket, List.filter_cons]
        split <;> simp_all <;> omega
      rw [hcons "INC", hcons "BJP", hcons "JDS", hcons "Others", List.length_cons]
      rcases List.mem_cons.mp hr with h1 | hr'
      · rw [h1]; simp; omega
      rcases List.mem_cons.mp hr' with h2 | hr''
      · rw [h2]; simp; omega
      rcases List.mem_cons.mp hr'' with h3 | hr'''
      · rw [h3]; simp; omega
      rcases List.mem_cons.mp hr''' with h4 | hfalse
      · rw [h4]; simp; omega
      · simp at hfalse

lemma pct_sum_eq_100 (a b c d n : ℕ) (hn : 0 < n) (hsum : a + b + c + d = n) :
    (a : ℚ) / n * 100 + (b : ℚ) / n * 100 + (c : ℚ) / n * 100
      + (d : ℚ) / n * 100 = 100 := by
  have hn' : (n : ℚ) ≠ 0 := Nat.cast_ne_zero.mpr (Nat.pos_iff_ne_zero.mp hn)
  have hq : (a : ℚ) + b + c + d = n := by
    exact_mod_cast congrArg (Nat.cast : ℕ → ℚ) hsum
  field_simp
  linarith

/-- Claim C7: `comp_df` lists the four buckets in the fixed order
[INC, BJP, JDS, Others]; each row carries the seat count and the
percentage `count / total_rows_in_scope * 100` for both scopes; and for
every scope that is non-empty and fully bucketed the four percentages sum
to exactly 100. -/
theorem comparative_seat_share_spec (full filt : List Row)
    (hfb : ∀ r ∈ full, r.winner ∈ buckets4)
    (hgb : ∀ r ∈ filt, r.winner ∈ buckets4)
    (hfn : full ≠ []) (hgn : filt ≠ []) :
    ((comparative_seat_share full filt).map CompRow.party = buckets4)
    ∧ (∀ c ∈ comparative_seat_share full filt,
        c.statewide_seats = countBucket full c.party
        ∧ c.filtered_seats = countBucket filt c.party
        ∧ c.statewide_pct = (c.statewide_seats : ℚ) / full.length * 100
        ∧ c.filtered_pct = (c.filtered_seats : ℚ) / filt.length * 100)
    ∧ ((comparative_seat_share full filt).map CompRow.statewide_pct).sum = 100
    ∧ ((comparative_seat_share full filt).map CompRow.filtered_pct).sum = 100 := by
  refine ⟨?_, ?_, ?_, ?_⟩
  · simp [comparative_seat_share, buckets4]
  · intro c hc
    rw [comparative_seat_share, List.mem_map] at hc
    obtain ⟨p, _, rfl⟩ := hc
    exact ⟨rfl, rfl, rfl, rfl⟩
  · have hlen : 0 < full.length := List.length_pos.mpr hfn
    have := countBucket_partition full hfb
    simp only [comparative_seat_share, buckets4, List.map_cons, List.map_nil,
      List.sum_cons, List.sum_nil, add_zero, ← add_assoc]
    exact pct_sum_eq_100 _ _ _ _ _ hlen this
  · have hlen : 0 < filt.length := List.length_pos.mpr hgn
    have := countBucket_partition filt hgb
    simp only [comparative_seat_share, buckets4, List.map_cons, List.map_nil,
      List.sum_cons, List.sum_nil, add_zero, ← add_assoc]
    exact pct_sum_eq_100 _ _ _ _ _ hlen this

/-- Witness for C7 on a concrete pair of scopes (full = two rows INC and
BJP, filtered = the INC row). -/
theorem comparative_seat_share_spec_witness :
    ((comparative_seat_share [mkRow "INC", mkRow "BJP"] [mkRow "INC"]).map
        CompRow.statewide_pct).sum = 100
    ∧ ((comparative_seat_share [mkRow "INC", mkRow "BJP"] [mkRow "INC"]).map
        CompRow.filtered_pct).sum = 100 := by
  have h := comparative_seat_share_spec [mkRow "INC", mkRow "BJP"] [mkRow "INC"]
    (by decide) (by decide) (by decide) (by decide)
  exact ⟨h.2.2.1, h.2.2.2⟩

/-- The bundle of aggregates a recomputation pass produces
(`src/app.py` lines 139-145 and 209-215). -/
structure ViewBundle where
  party_counts_state : List (String × ℕ)
  total_seats_state : ℕ
  majority_mark : ℕ
  winner_party_state : String
  gov_status : String
  party_counts_filtered : List (String × ℕ)
  total_seats_filtered : ℕ
  comp_df : List CompRow

/-- One recomputation pass of `src/app.py`: filter (lines 127-131), halt on
an empty filtered set (lines 133-135: `st.error` + `st.stop`, modelled as
`none`), otherwise compute the aggregations (lines 139-145) and `comp_df`
(lines 209-215). -/
def compute_view (df : List Row) (sel : Selection) : Option ViewBundle :=
  let f := filtered_df df sel
  if f.isEmpty then none
  else some
    { party_counts_state := party_counts df
      total_seats_state := df.length
      majority_mark := majority_threshold df.length
      winner_party_state := governing_bucket df
      gov_status := government_status df
      party_counts_filtered := party_counts f
      total_seats_filtered := f.length
      comp_df := comparative_seat_share df f }

/-- Claim C3: if the filtered set is empty the pass halts before any aggregation
(`compute_view` returns `none`, and conversely), and whenever a bundle is
produced both downstream percentage denominators — the filtered and the
statewide row counts — are strictly positive. -/
theorem empty_guard_halts (df : List Row) (sel : Selection) :
    (compute_view df sel = none ↔ filtered_df df sel = [])
    ∧ (∀ b : ViewBundle, compute_view df sel = some b →
        0 < b.total_seats_filtered ∧ 0 < b.total_seats_state
        ∧ b.total_seats_filtered = (filtered_df df sel).length
        ∧ b.total_seats_state = df.length) := by
  by_cases he : filtered_df df sel = []
  · refine ⟨by simp [compute_view, he], ?_⟩
    intro b hb
    simp [compute_view, he] at hb
  · have hiso : (filtered_df df sel).isEmpty = false := by
      simp [List.isEmpty_iff, he]
    refine ⟨by simp [compute_view, hiso, he], ?_⟩
    intro b hb
    simp only [compute_view, hiso, Bool.false_eq_true, if_false,
      Option.some.injEq] at hb
    have hflen : 0 < (filtered_df df sel).length := List.length_pos.mpr he
    have hdlen : (filtered_df df sel).length ≤ df.length :=
      (List.filter_sublist df).length_le
    rw [← hb]
    refine ⟨hflen, ?_, rfl, rfl⟩
    show 0 < df.length
    omega

/-- Witness for C3: a singleton dataset with an all-pass selection produces
a bundle with positive denominators, and the same dataset with an
impossible turnout range halts with `none`. -/
theorem empty_guard_halts_witness :
    (compute_view [sampleRow] ⟨["Bengaluru"], ["INC"], 0, 100⟩ = none ↔
      filtered_df [sampleRow] ⟨["Bengaluru"], ["INC"], 0, 100⟩ = [])
    ∧ (∀ b : ViewBundle,
        compute_view [sampleRow] ⟨["Bengaluru"], ["INC"], 0, 100⟩ = some b →
          0 < b.total_seats_filtered ∧ 0 < b.total_seats_state
          ∧ b.total_seats_filtered =
              (filtered_df [sampleRow] ⟨["Bengaluru"], ["INC"], 0, 100⟩).length
          ∧ b.total_seats_state = [sampleRow].length) :=
  empty_guard_halts [sampleRow] ⟨["Bengaluru"], ["INC"], 0, 100⟩

/-- Claim C10: the statewide summaries do not depend on the filter selection —
any two selections whose passes both produce a bundle yield identical
statewide bucket counts, total seat count, majority mark, governing bucket
and government status, because all of them are computed from the full
dataset only. -/
theorem statewide_filter_independent (df : List Row) (sel1 sel2 : Selection)
    (b1 b2 : ViewBundle) (h1 : compute_view df sel1 = some b1)
    (h2 : compute_view df sel2 = some b2) :
    b1.party_counts_state = b2.party_counts_state
    ∧ b1.total_seats_state = b2.total_seats_state
    ∧ b1.majority_mark = b2.majority_mark
    ∧ b1.winner_party_state = b2.winner_party_state
    ∧ b1.gov_status = b2.gov_status := by
  rw [compute_view] at h1 h2
  split at h1
  · exact absurd h1 (by simp)
  · split at h2
    · exact absurd h2 (by simp)
    · cases h1; cases h2
      exact ⟨rfl, rfl, rfl, rfl, rfl⟩

/-- Witness for C10: two different non-empty selections over a two-row
dataset produce bundles with the same statewide fields. -/
theorem statewide_filter_independent_witness :
    ∃ b1 b2 : ViewBundle,
      compute_view [sampleRow, mkRow "BJP"]
          ⟨["Bengaluru", "R"], ["INC", "BJP"], 0, 100⟩ = some b1
      ∧ compute_view [sampleRow, mkRow "BJP"] ⟨["R"], ["BJP"], 0, 100⟩ = some b2
      ∧ b1.party_counts_state = b2.party_counts_state
      ∧ b1.total_seats_state = b2.total_seats_state
      ∧ b1.majority_mark = b2.majority_mark
      ∧ b1.winner_party_state = b2.winner_party_state
      ∧ b1.gov_status = b2.gov_status := by
  refine ⟨_, _, rfl, rfl, ?_⟩
  exact statewide_filter_independent [sampleRow, mkRow "BJP"]
    ⟨["Bengaluru", "R"], ["INC", "BJP"], 0, 100⟩ ⟨["R"], ["BJP"], 0, 100⟩ _ _ rfl rfl

/-- The raw record written for a canonical row by the CSV export
(`src/app.py` lines 340-346, `to_csv(index=False)`): every canonical
column is written out, the numeric fields as their numeric values and
`Winner` as the already-normalized bucket string. -/
def toRaw (r : Row) : RawRow where
  constituency_id := r.constituency_id
  constituency_name := r.constituency_name
  winner_name := r.winner_name
  winner_party := r.winner_party
  winner := r.winner
  region := r.region
  margin := Cell.num (r.margin : ℚ)
  turnout_percentage := Cell.num r.turnout_percentage
  seats := Cell.num (r.seats : ℚ)

lemma truncInt_intCast (m : ℤ) : truncInt (m : ℚ) = m := by
  rw [truncInt]
  split
  · exact Int.floor_intCast m
  · exact Int.ceil_intCast m

/-- Claim C8: exporting rows whose `Winner` bucket is already normalized and
loading them back through the loader reproduces the rows exactly; in
particular `norm_party` is the identity on each of the four bucket
values. -/
theorem export_load_round_trip (rows : List Row)
    (h : ∀ r ∈ rows, r.winner ∈ buckets4) :
    load_data (rows.map toRaw) = rows
    ∧ (∀ b ∈ buckets4, norm_party b = b) := by
  have hnorm : ∀ b ∈ buckets4, norm_party b = b := by decide
  refine ⟨?_, hnorm⟩
  rw [load_data, List.map_map]
  induction rows with
  | nil => rfl
  | cons r t ih =>
      have hr := h r (List.mem_cons_self r t)
      have ht : ∀ x ∈ t, x.winner ∈ buckets4 :=
        fun x hx => h x (List.mem_cons.mpr (Or.inr hx))
      rw [List.map_cons, ih ht]
      congr 1
      cases r
      simp only [Function.comp_apply, loadRow, toRaw, coerceMargin,
        coerceTurnout, coerceSeats, truncInt_intCast]
      congr 1
      exact hnorm _ hr

/-- Witness for C8 on a concrete filtered row set. -/
theorem export_load_round_trip_witness :
    load_data ([sampleRow, mkRow "JDS"].map toRaw) = [sampleRow, mkRow "JDS"]
    ∧ (∀ b ∈ buckets4, norm_party b = b) :=
  export_load_round_trip [sampleRow, mkRow "JDS"] (by decide)

end KA2023
